import Mathlib

/-
Verification of the link-fixing script (fix_html_links.py) against its
specification.  The script is embedded shallowly:

* Python strings become `Str := List Char`; Python string operations
  (`lstrip`, `split`, `startswith`, `endswith`, `splitext`, ...) are
  re-implemented on `Str` with the same semantics.
* POSIX paths are handled at the component level: `os.path.join`,
  `os.path.normpath`, `os.path.relpath` and `os.path.basename` are embedded
  as operations on `List Str` (lists of components of an absolute path).
* The filesystem is modeled as the list `fs` of existing entries given as
  normalized absolute component paths; `os.path.exists p` becomes
  "the normalization of p is a member of fs" (no symlinks; the entries may
  be files or directories).
* The basename index (a Python dict built in insertion order) is modeled as
  an association list.
* The parsed HTML document (BeautifulSoup tree) is modeled by the inductive
  type `Node`; tag mutation, attribute assignment and `decompose` become
  pure tree rewrites, and the console prints of the script become an
  explicit event list.
-/

abbrev Str := List Char

/-- Python `href.lstrip('/')`: removes every leading `'/'` character. -/
def pyLstripSlashes (s : Str) : Str := s.dropWhile (fun c => c == '/')

/-- Python `s.split('/')` (also the component view of a POSIX path):
splitting on every `'/'`, keeping empty segments. -/
def splitPath : Str → List Str
  | [] => [[]]
  | c :: rest =>
      if c == '/' then [] :: splitPath rest
      else
        match splitPath rest with
        | [] => [[c]]
        | w :: ws => (c :: w) :: ws

/-- Inverse of `splitPath`: join components with `'/'`
(`'/'.join` in Python). -/
def joinPath : List Str → Str
  | [] => []
  | [w] => w
  | w :: ws => w ++ '/' :: joinPath ws

/-- One folding step of POSIX `normpath` on an absolute path: empty and `"."`
components disappear, `".."` removes the previous component (clamped at the
filesystem root). -/
def normStep (acc : List Str) (c : Str) : List Str :=
  if c == [] || c == ['.'] then acc
  else if c == ['.', '.'] then acc.dropLast
  else acc ++ [c]

/-- POSIX `normpath` of an absolute path given by its components. -/
def normAbs (l : List Str) : List Str := l.foldl normStep []

/-- Length of the common prefix of two component lists
(as used by `posixpath.relpath`). -/
def commonPrefixLen : List Str → List Str → Nat
  | a :: as, b :: bs => if a == b then commonPrefixLen as bs + 1 else 0
  | _, _ => 0

/-- Embedding of `posixpath.relpath path start` for absolute paths given as component
lists: both sides are normalized, the common prefix is dropped, and one
`".."` is produced for every remaining component of `start`; an empty result
is the current directory `"."`. -/
def relpathAbs (path start : List Str) : List Str :=
  let p := normAbs path
  let s := normAbs start
  let i := commonPrefixLen p s
  let rel := List.replicate (s.length - i) "..".data ++ p.drop i
  if rel.isEmpty then [".".data] else rel

/-- Embedding of `os.path.basename`: everything after the last `'/'`. -/
def pyBasename (p : Str) : Str := (splitPath p).getLastD []

/-- Index of the last occurrence of a character, Python `s.rfind(c)`
(as an `Option` instead of `-1`). -/
def rfindIdx (c : Char) (s : Str) : Option Nat :=
  match s.reverse.findIdx? (fun x => x == c) with
  | some i => some (s.length - 1 - i)
  | none => none

/-- Embedding of `os.path.splitext`: split at the last dot of the basename, except that
leading dots of the basename never start an extension. -/
def splitext (s : Str) : Str × Str :=
  let start := match rfindIdx '/' s with | some i => i + 1 | none => 0
  let pre := s.take start
  let base := s.drop start
  match rfindIdx '.' base with
  | none => (s, [])
  | some d =>
      if (base.take d).all (fun x => x == '.') then (s, [])
      else (pre ++ base.take d, base.drop d)

/-- Lookup in the basename index; models Python `base in index` combined
with `index[base]` on the dict. -/
def indexFind (index : List (Str × List Str)) (base : Str) : Option (List Str) :=
  match index.find? (fun e => e.1 == base) with
  | some e => some e.2
  | none => none

/-- Embedding of `index.setdefault(key, []).append(rel)`: append `rel` to the entry of
`key`, creating the entry (at the end, in dict insertion order) if absent. -/
def indexInsert : List (Str × List Str) → Str → Str → List (Str × List Str)
  | [], key, rel => [(key, [rel])]
  | e :: rest, key, rel =>
      if e.1 == key then (e.1, e.2 ++ [rel]) :: rest
      else e :: indexInsert rest key rel

/-- Python `s.lower()` (ASCII view). -/
def pyLower (s : Str) : Str := s.map Char.toLower

/-- Embedding of `file.lower().endswith('.html')`. -/
def endsWithHtml (name : Str) : Bool := ".html".data.isSuffixOf (pyLower name)

/-- Embedding of `build_html_index`: the `os.walk` traversal is abstracted
to `walkFiles`, the list of paths of all files under the project root,
relative to the root, in traversal order; each `.html` file (suffix matched
case-insensitively) is appended to the entry of its basename. -/
def build_html_index (walkFiles : List Str) : List (Str × List Str) :=
  walkFiles.foldl
    (fun idx rel =>
      if endsWithHtml (pyBasename rel) then indexInsert idx (pyBasename rel) rel
      else idx)
    []

/-- Embedding of `find_target_path`.  `href` is the link text, `index` the
basename index, `fs` the filesystem model, `root` the absolute project root
as a component list.  Returns the result together with the list of ambiguity
warnings printed, each as (basename, full candidate list).
(If an index entry carried an empty path list Python would raise IndexError;
`build_html_index` never produces one, and the embedding returns `none`.) -/
def find_target_path (href : Str) (index : List (Str × List Str))
    (fs : List (List Str)) (root : List Str) : Option Str × List (Str × List Str) :=
  let normalized_href := pyLstripSlashes href
  let candidate_path := root ++ splitPath normalized_href
  if normAbs candidate_path ∈ fs then
    (some (joinPath (relpathAbs candidate_path root)), [])
  else
    let base := pyBasename normalized_href
    match indexFind index base with
    | some paths =>
        if 1 < paths.length then (paths.head?, [(base, paths)])
        else (paths.head?, [])
    | none => (none, [])

/-- A component that survives `normpath` unchanged: not empty, not `"."`,
not `".."`. -/
def goodComp (c : Str) : Bool := !(c == []) && !(c == ['.']) && !(c == ['.', '.'])

/- ===== The document model: BeautifulSoup trees as inductive trees ===== -/
abbrev Attrs := List (Str × Str)

inductive Node where
  | text (s : Str)
  | elem (tag : Str) (attrs : Attrs) (children : List Node)

/-- attribute lookup, `tag['k']` guarded by `k=True` in `find_all` -/
def getAttr (a : Attrs) (k : Str) : Option Str :=
  match a.find? (fun p => p.1 == k) with
  | some p => some p.2
  | none => none

/-- attribute assignment `tag['k'] = v` -/
def setAttr : Attrs → Str → Str → Attrs
  | [], k, v => [(k, v)]
  | p :: rest, k, v => if p.1 == k then (k, v) :: rest else p :: setAttr rest k v

/-- The observable actions of one `fix_links_in_html` call: the console
notices and every mutation site (every place the script sets
`changed = True`). -/
inductive Event where
  | ambiguousWarning (base : Str) (candidates : List Str)
  | linkUpdate (oldHref newHref : Str)
  | linkNotFound (href : Str)
  | imgUpdate (oldSrc newSrc : Str)
  | citationRemoved
  | topicsRemoved
  | h3Renamed
  | pRemoved (txt : Str)

/-- Whether an event is an actual document mutation (a site that sets
`changed = True`) as opposed to a pure console notice. -/
def Event.isChange : Event → Bool
  | .ambiguousWarning _ _ => false
  | .linkNotFound _ => false
  | _ => true

def Event.isImgUpdate : Event → Bool
  | .imgUpdate _ _ => true
  | _ => false

def Event.isCitationRemoved : Event → Bool
  | .citationRemoved => true
  | _ => false

def Event.isH3Renamed : Event → Bool
  | .h3Renamed => true
  | _ => false

/-- Per-file context of `fix_links_in_html`: `root` is the absolute project
root and `docDir` the absolute directory of the file
(`os.path.dirname(file_path)`), both as component lists; `docName` is
`os.path.basename(file_path)`; `index` and `fs` are as in
`find_target_path`. -/
structure Ctx where
  root : List Str
  docDir : List Str
  docName : Str
  index : List (Str × List Str)
  fs : List (List Str)

/-- Python `str` whitespace (ASCII part; the documents are ASCII). -/
def isPySpace (c : Char) : Bool :=
  c == ' ' || c == '\t' || c == '\n' || c == '\r' || c == '\x0b' || c == '\x0c'

/-- Python `s.strip()`. -/
def pyStrip (s : Str) : Str :=
  ((s.dropWhile isPySpace).reverse.dropWhile isPySpace).reverse

mutual

/-- Embedding of `tag.get_text(strip=True)`: concatenation of the stripped text node
strings of the subtree, in document order. -/
def getTextStripNode : Node → Str
  | .text s => pyStrip s
  | .elem _ _ cs => getTextStripList cs

def getTextStripList : List Node → Str
  | [] => []
  | n :: rest => getTextStripNode n ++ getTextStripList rest

end

/-- Embedding of `''.join(text.split())`: remove every whitespace character. -/
def removeAllWS (s : Str) : Str := s.filter (fun c => !isPySpace c)

/-- the paragraph-normalization of the script:
`''.join(p.get_text(strip=True).split())` -/
def normText (n : Node) : Str := removeAllWS (getTextStripNode n)

def splitWSAux (c : Char) (st : Str × List Str) : Str × List Str :=
  if isPySpace c then ([], if st.1.isEmpty then st.2 else st.1 :: st.2)
  else (c :: st.1, st.2)

/-- Python `s.split()` (split on whitespace runs, dropping empties); this is
how a multi-valued `class` attribute value is read. -/
def pySplitWS (s : Str) : List Str :=
  let st := s.foldr splitWSAux ([], [])
  if st.1.isEmpty then st.2 else st.1 :: st.2

/-- whether the `class` attribute, as a multi-valued attribute, contains the
given class (the `class_="citation"` matcher) -/
def hasClass (a : Attrs) (cls : Str) : Bool :=
  match getAttr a "class".data with
  | some v => (pySplitWS v).contains cls
  | none => false

/-- Embedding of the `soup.find_all('span', class_="citation")` membership test -/
def isCitationNode : Node → Bool
  | .elem t a _ => t == "span".data && hasClass a "citation".data
  | .text _ => false

/-- the two literal normalized texts of the unwanted paragraphs -/
def unwantedTexts : List Str :=
  ["\x7b\x7d".data, "(scope:global)\x7b(disabled)(disabled)(disabled)\x7d".data]

def isUnwantedText (s : Str) : Bool := unwantedTexts.contains s

/-- a paragraph whose normalized text is one of the two unwanted literals -/
def isUnwantedP (n : Node) : Bool :=
  match n with
  | .elem t _ _ => t == "p".data && isUnwantedText (normText n)
  | .text _ => false

/-- Embedding of the `soup.find("h2", id="topics")` membership test -/
def isTopicsH2 : Node → Bool
  | .elem t a _ => t == "h2".data && (getAttr a "id".data == some "topics".data)
  | .text _ => false

/- ===== Generic traversal combinators covering the loops of the script ===== -/
/-- A per-element rewrite step: from tag and attributes to the new tag and
attributes, the `changed` contribution and the printed events.  The loops
over `find_all` snapshots rewrite every matching element of the tree in
document order, which is this map. -/
abbrev MapStep := Str → Attrs → (Str × Attrs) × Bool × List Event

mutual

def mapNode (f : MapStep) : Node → Node × Bool × List Event
  | .text s => (.text s, false, [])
  | .elem t a cs =>
      let r := f t a
      let rc := mapList f cs
      (.elem r.1.1 r.1.2 rc.1, r.2.1 || rc.2.1, r.2.2 ++ rc.2.2)

def mapList (f : MapStep) : List Node → List Node × Bool × List Event
  | [] => ([], false, [])
  | n :: rest =>
      let rn := mapNode f n
      let rr := mapList f rest
      (rn.1 :: rr.1, rn.2.1 || rr.2.1, rn.2.2 ++ rr.2.2)

end

/- A removal pass: `decompose` every node satisfying `rem` (with its whole
subtree, as `decompose` destroys it), in document order, emitting `ev` and
setting `changed` for each removal.  (For a match nested inside a removed
match Python still prints and sets the already-true flag on the detached
node; the tree and the truth of `changed` agree with this embedding.) -/
mutual

def filtNode (rem : Node → Bool) (ev : Node → Event) : Node → Node × Bool × List Event
  | .text s => (.text s, false, [])
  | .elem t a cs =>
      let rc := filtList rem ev cs
      (.elem t a rc.1, rc.2.1, rc.2.2)

def filtList (rem : Node → Bool) (ev : Node → Event) : List Node → List Node × Bool × List Event
  | [] => ([], false, [])
  | n :: rest =>
      if rem n then
        let rr := filtList rem ev rest
        (rr.1, true, ev n :: rr.2.2)
      else
        let rn := filtNode rem ev n
        let rr := filtList rem ev rest
        (rn.1 :: rr.1, rn.2.1 || rr.2.1, rn.2.2 ++ rr.2.2)

end

/- The h2#topics edit: `soup.find` locates the first matching element in
document order; only if its stripped text is exactly "Topics" is that
element removed.  Returns (tree, found, changed). -/
mutual

def topicsNode : Node → Node × Bool × Bool
  | .text s => (.text s, false, false)
  | .elem t a cs =>
      let rc := topicsList cs
      (.elem t a rc.1, rc.2.1, rc.2.2)

def topicsList : List Node → List Node × Bool × Bool
  | [] => ([], false, false)
  | n :: rest =>
      if isTopicsH2 n then
        if getTextStripNode n == "Topics".data then (rest, true, true)
        else (n :: rest, true, false)
      else
        let rn := topicsNode n
        if rn.2.1 then (rn.1 :: rest, true, rn.2.2)
        else
          let rr := topicsList rest
          (rn.1 :: rr.1, rr.2.1, rr.2.2)

end

/- ===== The concrete rewrite steps of fix_links_in_html ===== -/
/-- hrefs skipped by the `<a>` loop: in-page anchors and external links -/
def protectedHref (h : Str) : Bool :=
  "#".data.isPrefixOf h || "http://".data.isPrefixOf h || "https://".data.isPrefixOf h

/-- the `<a>` loop body: for an `a` element carrying an href, resolve the
target and reassign the href to the path relative to the file's directory
when it differs -/
def aStep (ctx : Ctx) (t : Str) (a : Attrs) : (Str × Attrs) × Bool × List Event :=
  if t == "a".data then
    match getAttr a "href".data with
    | some href =>
        if protectedHref href then ((t, a), false, [])
        else
          match find_target_path href ctx.index ctx.fs ctx.root with
          | (some target_rel, warns) =>
              let newHref := joinPath (relpathAbs (ctx.root ++ splitPath target_rel) ctx.docDir)
              let wEvents := warns.map (fun w => Event.ambiguousWarning w.1 w.2)
              if newHref == href then ((t, a), false, wEvents)
              else ((t, setAttr a "href".data newHref), true,
                    wEvents ++ [Event.linkUpdate href newHref])
          | (none, warns) =>
              ((t, a), false,
               warns.map (fun w => Event.ambiguousWarning w.1 w.2) ++ [Event.linkNotFound href])
    | none => ((t, a), false, [])
  else ((t, a), false, [])

/-- the rewritten src for a bare img filename: `../Assets/<stem>@2x.png` -/
def assetsSrc (src : Str) : Str :=
  "../Assets/".data ++ (splitext src).1 ++ "@2x.png".data

/-- The img-src decision: `none` when the element is skipped (external src,
src containing a separator) or when the new value would equal the old one
(the `new_src != src` guard), otherwise the new src. -/
def imgNewSrc (src : Str) : Option Str :=
  if "http://".data.isPrefixOf src || "https://".data.isPrefixOf src then none
  else if '/' ∈ src then none
  else if assetsSrc src == src then none
  else some (assetsSrc src)

/-- the `<img>` loop body -/
def imgStep (t : Str) (a : Attrs) : (Str × Attrs) × Bool × List Event :=
  if t == "img".data then
    match getAttr a "src".data with
    | some src =>
        match imgNewSrc src with
        | some newSrc => ((t, setAttr a "src".data newSrc), true, [Event.imgUpdate src newSrc])
        | none => ((t, a), false, [])
    | none => ((t, a), false, [])
  else ((t, a), false, [])

/-- the `h3.name = "h2"` loop body -/
def h3Step (t : Str) (a : Attrs) : (Str × Attrs) × Bool × List Event :=
  if t == "h3".data then (("h2".data, a), true, [Event.h3Renamed])
  else ((t, a), false, [])

def aPass (ctx : Ctx) (l : List Node) : List Node × Bool × List Event :=
  mapList (aStep ctx) l

def imgPass (l : List Node) : List Node × Bool × List Event :=
  mapList imgStep l

def citPass (l : List Node) : List Node × Bool × List Event :=
  filtList isCitationNode (fun _ => Event.citationRemoved) l

def topicsPass (l : List Node) : List Node × Bool × List Event :=
  let r := topicsList l
  (r.1, r.2.2, if r.2.2 then [Event.topicsRemoved] else [])

def h3Pass (l : List Node) : List Node × Bool × List Event :=
  mapList h3Step l

def pPass (l : List Node) : List Node × Bool × List Event :=
  filtList isUnwantedP (fun n => Event.pRemoved (getTextStripNode n)) l

structure FixResult where
  tree : List Node
  changed : Bool
  events : List Event

/-- the one document name receiving the structural edits -/
def theBookName : Str := "The-Swift-Programming-Language.html".data

/-- Embedding of `fix_links_in_html` on a parsed document (top-level node
list): the `<a>` pass, the `<img>` pass, and — only for the designated
document — the citation removal, the h2#topics removal, the h3 renaming and
the unwanted-paragraph removal, in the script's order. -/
def fix_links_in_html (ctx : Ctx) (doc : List Node) : FixResult :=
  let r1 := aPass ctx doc
  let r2 := imgPass r1.1
  if ctx.docName == theBookName then
    let r3 := citPass r2.1
    let r4 := topicsPass r3.1
    let r5 := h3Pass r4.1
    let r6 := pPass r5.1
    ⟨r6.1, r1.2.1 || r2.2.1 || r3.2.1 || r4.2.1 || r5.2.1 || r6.2.1,
     r1.2.2 ++ r2.2.2 ++ r3.2.2 ++ r4.2.2 ++ r5.2.2 ++ r6.2.2⟩
  else
    ⟨r2.1, r1.2.1 || r2.2.1, r1.2.2 ++ r2.2.2⟩

/-- the conditional write-back: the file's new content iff `changed` was set -/
def writtenContent (ctx : Ctx) (doc : List Node) : Option (List Node) :=
  let r := fix_links_in_html ctx doc
  if r.changed then some r.tree else none

/- ===== C8: machinery — element invariants over the passes ===== -/
/-- the event kinds that cannot occur on a second run (amended C8) -/
def Event.isOneShot : Event → Bool
  | .imgUpdate _ _ => true
  | .citationRemoved => true
  | .h3Renamed => true
  | _ => false

mutual

def allElemsNode (p : Str → Attrs → Bool) : Node → Bool
  | .text _ => true
  | .elem t a cs => p t a && allElemsList p cs

def allElemsList (p : Str → Attrs → Bool) : List Node → Bool
  | [] => true
  | n :: rest => allElemsNode p n && allElemsList p rest

end

/-- after the img pass every img src is one `imgNewSrc` skips -/
def imgOk (t : Str) (a : Attrs) : Bool :=
  if t == "img".data then
    match getAttr a "src".data with
    | some s => (imgNewSrc s).isNone
    | none => true
  else true

/-- not a citation span -/
def citOk (t : Str) (a : Attrs) : Bool := !(t == "span".data && hasClass a "citation".data)

/-- not an h3 -/
def h3Ok (t : Str) (_ : Attrs) : Bool := !(t == "h3".data)

/-- C8 counterexample input: the designated document containing two
h2#topics headings with text "Topics" (duplicate ids are invalid HTML but
the parser accepts them). -/
def c8doc : List Node :=
  [Node.elem "h2".data [("id".data, "topics".data)] [Node.text "Topics".data],
   Node.elem "h2".data [("id".data, "topics".data)] [Node.text "Topics".data]]

def c8ctx : Ctx := ⟨["r".data], ["r".data], theBookName, [], []⟩

/- ===== C9: paragraph predicates and text collections ===== -/
mutual

/-- the subtree contains no `p` element at all -/
def pFreeNode : Node → Bool
  | .text _ => true
  | .elem t _ cs => !(t == "p".data) && pFreeList cs

def pFreeList : List Node → Bool
  | [] => true
  | n :: rest => pFreeNode n && pFreeList rest

end

mutual

/-- no `p` element contains another `p` element (true of every tree the
HTML parser can produce, since `p` auto-closes) -/
def pNestFreeNode : Node → Bool
  | .text _ => true
  | .elem t _ cs => if t == "p".data then pFreeList cs else pNestFreeList cs

def pNestFreeList : List Node → Bool
  | [] => true
  | n :: rest => pNestFreeNode n && pNestFreeList rest

end

mutual

/-- the normalized texts of all `p` elements, in document order -/
def pTextsNode : Node → List Str
  | .text _ => []
  | .elem t a cs =>
      (if t == "p".data then [normText (.elem t a cs)] else []) ++ pTextsList cs

def pTextsList : List Node → List Str
  | [] => []
  | n :: rest => pTextsNode n ++ pTextsList rest

end

/-- C9 witness inputs: a document with one unwanted `\x7b\x7d` paragraph and
one normal paragraph; a designated and an ordinary context. -/
def c9doc : List Node :=
  [Node.elem "p".data [] [Node.text " \x7b\n\x7d ".data],
   Node.elem "p".data [] [Node.text "keep me".data]]

def c9ctxBook : Ctx := ⟨["r".data], ["r".data], theBookName, [], []⟩

def c9ctxOther : Ctx := ⟨["r".data], ["r".data], "Other.html".data, [], []⟩

theorem splitPath_ne_nil (s : Str) : splitPath s ≠ [] := by
  cases s with
  | nil => simp [splitPath]
  | cons c rest =>
      simp only [splitPath]
      split
      · simp
      · split
        · simp
        · simp

theorem joinPath_splitPath (s : Str) : joinPath (splitPath s) = s := by
  induction s with
  | nil => rfl
  | cons c rest ih =>
      simp only [splitPath]
      by_cases h : c = '/'
      · subst h
        simp only [beq_self_eq_true, if_true]
        have hne := splitPath_ne_nil rest
        cases hsp : splitPath rest with
        | nil => exact absurd hsp hne
        | cons w ws =>
            rw [hsp] at ih
            simp only [joinPath]
            cases ws with
            | nil => simp [joinPath] at ih ⊢; exact ih
            | cons w2 ws2 => simpa [joinPath] using ih
      · have hb : (c == '/') = false := by simpa using h
        rw [hb]
        simp only [Bool.false_eq_true, if_false]
        have hne := splitPath_ne_nil rest
        cases hsp : splitPath rest with
        | nil => exact absurd hsp hne
        | cons w ws =>
            rw [hsp] at ih
            cases ws with
            | nil => simp [joinPath] at ih ⊢; exact ih
            | cons w2 ws2 => simpa [joinPath] using ih

theorem normStep_good (acc : List Str) (c : Str) (h : goodComp c = true) :
    normStep acc c = acc ++ [c] := by
  unfold goodComp at h
  unfold normStep
  simp only [Bool.and_eq_true, Bool.not_eq_true'] at h
  rw [h.1.1, h.1.2, h.2]
  simp

theorem foldl_normStep_good (cs : List Str) (h : cs.all goodComp = true) :
    ∀ acc : List Str, List.foldl normStep acc cs = acc ++ cs := by
  induction cs with
  | nil => intro acc; simp
  | cons c rest ih =>
      intro acc
      simp only [List.all_cons, Bool.and_eq_true] at h
      simp only [List.foldl_cons]
      rw [normStep_good acc c h.1, ih h.2]
      simp

theorem normAbs_append_good (r cs : List Str) (h : cs.all goodComp = true) :
    normAbs (r ++ cs) = normAbs r ++ cs := by
  unfold normAbs
  rw [List.foldl_append]
  exact foldl_normStep_good cs h (List.foldl normStep [] r)

theorem commonPrefixLen_append_self (x cs : List Str) :
    commonPrefixLen (x ++ cs) x = x.length := by
  induction x with
  | nil =>
      cases cs with
      | nil => rfl
      | cons a as => rfl
  | cons a as ih => simp [commonPrefixLen, ih]

theorem relpathAbs_append (root cs : List Str) (hgood : cs.all goodComp = true)
    (hne : cs ≠ []) : relpathAbs (root ++ cs) root = cs := by
  unfold relpathAbs
  rw [normAbs_append_good root cs hgood]
  dsimp only
  rw [commonPrefixLen_append_self (normAbs root) cs]
  simp only [Nat.sub_self, List.replicate_zero, List.nil_append, List.drop_left]
  have hf : cs.isEmpty = false := by
    cases cs with
    | nil => exact absurd rfl hne
    | cons a as => rfl
  rw [hf]
  simp

/-- C1: if the href, after leading-separator normalization, names an existing
entry relative to the root, `find_target_path` returns exactly that path
(relative to the root), whatever the basename index contains — the
exact-match branch takes priority over any index lookup. -/
theorem c1_exact_match_priority (href : Str) (index : List (Str × List Str))
    (fs : List (List Str)) (root : List Str)
    (hgood : (splitPath (pyLstripSlashes href)).all goodComp = true)
    (hex : normAbs (root ++ splitPath (pyLstripSlashes href)) ∈ fs) :
    (find_target_path href index fs root).1 = some (pyLstripSlashes href) := by
  unfold find_target_path
  rw [if_pos hex]
  rw [relpathAbs_append root (splitPath (pyLstripSlashes href)) hgood
    (splitPath_ne_nil (pyLstripSlashes href))]
  rw [joinPath_splitPath]

/-- C1 witness: an href that matches an existing file exactly is returned
as-is even though its basename is ambiguous in the index. -/
theorem c1_exact_match_priority_witness :
    (find_target_path "HTML/AboutSwift.html".data
      [("AboutSwift.html".data, ["X/AboutSwift.html".data, "Y/AboutSwift.html".data])]
      [["r".data, "HTML".data, "AboutSwift.html".data]]
      ["r".data]).1 = some "HTML/AboutSwift.html".data :=
  c1_exact_match_priority "HTML/AboutSwift.html".data
    [("AboutSwift.html".data, ["X/AboutSwift.html".data, "Y/AboutSwift.html".data])]
    [["r".data, "HTML".data, "AboutSwift.html".data]]
    ["r".data] (by decide) (by decide)

/-- C2: when the exact-match check fails and the basename has more than one
index entry, `find_target_path` returns the first entry and emits a warning
carrying the basename and the full candidate list. -/
theorem c2_ambiguous_first_entry (href : Str) (index : List (Str × List Str))
    (fs : List (List Str)) (root : List Str) (paths : List Str)
    (hnotex : normAbs (root ++ splitPath (pyLstripSlashes href)) ∉ fs)
    (hfind : indexFind index (pyBasename (pyLstripSlashes href)) = some paths)
    (hlen : 1 < paths.length) :
    find_target_path href index fs root
      = (paths.head?, [(pyBasename (pyLstripSlashes href), paths)]) := by
  unfold find_target_path
  rw [if_neg hnotex]
  dsimp only
  rw [hfind]
  dsimp only
  rw [if_pos hlen]

/-- C2 witness: an ambiguous basename resolves to the first entry in
traversal order, with a warning naming both candidates. -/
theorem c2_ambiguous_first_entry_witness :
    find_target_path "AboutSwift.html".data
      [("AboutSwift.html".data, ["X/AboutSwift.html".data, "Y/AboutSwift.html".data])]
      [] ["r".data]
      = (some "X/AboutSwift.html".data,
         [("AboutSwift.html".data, ["X/AboutSwift.html".data, "Y/AboutSwift.html".data])]) :=
  c2_ambiguous_first_entry "AboutSwift.html".data
    [("AboutSwift.html".data, ["X/AboutSwift.html".data, "Y/AboutSwift.html".data])]
    [] ["r".data] ["X/AboutSwift.html".data, "Y/AboutSwift.html".data]
    (by decide) (by decide) (by decide)

/-- C3 counterexample: the claim says exactly one leading separator is
stripped, so `"//AboutSwift.html"` would normalize to `"/AboutSwift.html"`
(the href minus its first character); in fact `lstrip('/')` strips every
leading separator. -/
theorem c3_counterexample :
    pyLstripSlashes "//AboutSwift.html".data ≠ List.drop 1 "//AboutSwift.html".data := by
  decide

/-- C3 amended: the first step of `find_target_path` strips ALL leading path
separators: the normalized href never starts with `'/'`, and the original
href is some number of leading separators followed by the normalized href. -/
theorem c3_amended_strip_all_leading (href : Str) :
    (pyLstripSlashes href).head? ≠ some '/' ∧
    ∃ k, href = List.replicate k '/' ++ pyLstripSlashes href := by
  induction href with
  | nil => exact ⟨by simp [pyLstripSlashes], 0, rfl⟩
  | cons c rest ih =>
      by_cases h : c = '/'
      · subst h
        obtain ⟨h1, k, hk⟩ := ih
        refine ⟨?_, k + 1, ?_⟩
        · simpa [pyLstripSlashes] using h1
        · simp only [List.replicate_succ, List.cons_append, List.cons.injEq, true_and]
          have : pyLstripSlashes ('/' :: rest) = pyLstripSlashes rest := by
            simp [pyLstripSlashes]
          rw [this]
          exact hk
      · have hb : (c == '/') = false := by simpa using h
        have hstr : pyLstripSlashes (c :: rest) = c :: rest := by
          simp [pyLstripSlashes, hb]
        refine ⟨?_, 0, by simp [hstr]⟩
        rw [hstr]
        simp only [List.head?_cons, ne_eq, Option.some.injEq]
        exact h

/-- C10: the exact-match branch succeeds for any existing filesystem entry at
root + normalizedHref — a directory or a non-HTML file works just as well as
an `.html` file — returning its path relative to the root, and its outcome
does not depend on the basename index at all. -/
theorem c10_exact_match_any_entry (href : Str) (index : List (Str × List Str))
    (fs : List (List Str)) (root : List Str)
    (hex : normAbs (root ++ splitPath (pyLstripSlashes href)) ∈ fs) :
    (find_target_path href index fs root).1
      = some (joinPath (relpathAbs (root ++ splitPath (pyLstripSlashes href)) root)) ∧
    ∀ index2 : List (Str × List Str),
      (find_target_path href index2 fs root).1 = (find_target_path href index fs root).1 := by
  constructor
  · unfold find_target_path
    rw [if_pos hex]
  · intro index2
    unfold find_target_path
    rw [if_pos hex, if_pos hex]

/-- C10 witness: `"Images"`, an extensionless entry (e.g. a directory),
is found by the exact-match branch with an empty basename index. -/
theorem c10_exact_match_any_entry_witness :
    (find_target_path "Images".data [] [["r".data, "Images".data]] ["r".data]).1
      = some "Images".data := by
  have h := (c10_exact_match_any_entry "Images".data []
    [["r".data, "Images".data]] ["r".data] (by decide)).1
  rw [h]
  decide

/- ===== C4, C5, C6: per-element behavior of the two rewrite loops ===== -/
theorem aStep_not_found (ctx : Ctx) (a : Attrs) (href : Str)
    (hhref : getAttr a "href".data = some href)
    (hprot : protectedHref href = false)
    (hfind : find_target_path href ctx.index ctx.fs ctx.root = (none, [])) :
    aStep ctx "a".data a = (("a".data, a), false, [Event.linkNotFound href]) := by
  simp [aStep, hhref, hprot, hfind]

/-- C4: an anchor element whose href is neither an in-page anchor nor an
external link, and whose target resolution returns not-found, keeps its
attributes verbatim; a not-found notice is logged; and the traversal
continues through the element's children and its following siblings with
nothing else contributed (the condition is non-fatal). -/
theorem c4_not_found_href_unchanged (ctx : Ctx) (a : Attrs) (cs rest : List Node) (href : Str)
    (hhref : getAttr a "href".data = some href)
    (hprot : protectedHref href = false)
    (hfind : find_target_path href ctx.index ctx.fs ctx.root = (none, [])) :
    mapList (aStep ctx) (Node.elem "a".data a cs :: rest)
      = (Node.elem "a".data a (mapList (aStep ctx) cs).1 :: (mapList (aStep ctx) rest).1,
         (mapList (aStep ctx) cs).2.1 || (mapList (aStep ctx) rest).2.1,
         Event.linkNotFound href :: ((mapList (aStep ctx) cs).2.2 ++ (mapList (aStep ctx) rest).2.2)) := by
  have hstep := aStep_not_found ctx a href hhref hprot hfind
  simp [mapList, mapNode, hstep]

/-- C4 witness: with an empty index and filesystem the link
`"Missing.html"` is not found; the element is untouched and its sibling list
still gets processed. -/
theorem c4_not_found_href_unchanged_witness :
    mapList (aStep ⟨["r".data], ["r".data], "x.html".data, [], []⟩)
        [Node.elem "a".data [("href".data, "Missing.html".data)] []]
      = ([Node.elem "a".data [("href".data, "Missing.html".data)] []], false,
         [Event.linkNotFound "Missing.html".data]) := by
  have h := c4_not_found_href_unchanged ⟨["r".data], ["r".data], "x.html".data, [], []⟩
    [("href".data, "Missing.html".data)] [] [] "Missing.html".data
    (by decide) (by decide) (by decide)
  simpa [mapList] using h

theorem aStep_keeps (ctx : Ctx) (t : Str) (a : Attrs)
    (h : ∀ href, getAttr a "href".data = some href → protectedHref href = true) :
    aStep ctx t a = ((t, a), false, []) := by
  by_cases ht : (t == "a".data) = true
  · cases hh : getAttr a "href".data with
    | none => simp [aStep, ht, hh]
    | some href => simp [aStep, ht, hh, h href hh]
  · simp [aStep, ht]

/-- C5: an anchor element whose href starts with `#`, `http://` or
`https://` is never modified: its tag and attributes pass through the link
pass unchanged and it produces no event, whatever the index and filesystem
contents are (and the other passes never touch an href at all). -/
theorem c5_protected_href_untouched (ctx : Ctx) (t : Str) (a : Attrs) (cs : List Node) (href : Str)
    (hhref : getAttr a "href".data = some href)
    (hprot : protectedHref href = true) :
    mapNode (aStep ctx) (Node.elem t a cs)
      = (Node.elem t a (mapList (aStep ctx) cs).1,
         (mapList (aStep ctx) cs).2.1,
         (mapList (aStep ctx) cs).2.2) := by
  have hstep : aStep ctx t a = ((t, a), false, []) := by
    apply aStep_keeps
    intro h2 hh
    rw [hhref] at hh
    cases hh
    exact hprot
  simp [mapNode, hstep]

/-- C5 witness: an in-page anchor and an https link are left verbatim, even
with an index entry for their basename-like text. -/
theorem c5_protected_href_untouched_witness :
    mapNode (aStep ⟨["r".data], ["r".data], "x.html".data,
        [("section".data, ["HTML/section".data])], []⟩)
      (Node.elem "a".data [("href".data, "#section".data)] [])
      = (Node.elem "a".data [("href".data, "#section".data)] [], false, []) := by
  have h := c5_protected_href_untouched ⟨["r".data], ["r".data], "x.html".data,
      [("section".data, ["HTML/section".data])], []⟩
    "a".data [("href".data, "#section".data)] [] "#section".data (by decide) (by decide)
  simpa [mapList] using h

theorem slash_mem_assetsSrc (src : Str) : '/' ∈ assetsSrc src := by
  unfold assetsSrc
  refine List.mem_append.mpr (Or.inl (List.mem_append.mpr (Or.inl ?_)))
  decide

theorem imgNewSrc_of_slash (src : Str) (h : '/' ∈ src) : imgNewSrc src = none := by
  unfold imgNewSrc
  by_cases hext : ("http://".data.isPrefixOf src || "https://".data.isPrefixOf src) = true
  · rw [if_pos hext]
  · rw [if_neg hext, if_pos h]

/-- C6: the img-src rule: an external src (http/https) is left unchanged, a
src containing a path separator is left unchanged, and any other src is
rewritten to `../Assets/<stem>@2x.png` where `<stem>` is the filename
without its extension (`os.path.splitext`). -/
theorem c6_img_src_rules (src : Str) :
    (("http://".data.isPrefixOf src || "https://".data.isPrefixOf src) = true →
        imgNewSrc src = none) ∧
    ('/' ∈ src → imgNewSrc src = none) ∧
    (("http://".data.isPrefixOf src || "https://".data.isPrefixOf src) = false →
        '/' ∉ src →
        imgNewSrc src = some ("../Assets/".data ++ (splitext src).1 ++ "@2x.png".data)) := by
  refine ⟨?_, imgNewSrc_of_slash src, ?_⟩
  · intro h
    unfold imgNewSrc
    rw [if_pos h]
  · intro hext hmem
    unfold imgNewSrc
    rw [hext]
    simp only [Bool.false_eq_true, if_false]
    rw [if_neg hmem]
    have hne : (assetsSrc src == src) = false := by
      apply beq_eq_false_iff_ne.mpr
      intro heq
      exact hmem (heq ▸ slash_mem_assetsSrc src)
    rw [hne]
    simp only [Bool.false_eq_true, if_false]
    rfl

/-- C6 witness: `Foo.png` becomes `../Assets/Foo@2x.png`, while
`sub/Foo.png` and an https src are untouched. -/
theorem c6_img_src_rules_witness :
    imgNewSrc "Foo.png".data = some "../Assets/Foo@2x.png".data ∧
    imgNewSrc "sub/Foo.png".data = none ∧
    imgNewSrc "https://x/Foo.png".data = none := by
  refine ⟨?_, ?_, ?_⟩
  · have h := (c6_img_src_rules "Foo.png".data).2.2 (by decide) (by decide)
    rw [h]
    decide
  · exact (c6_img_src_rules "sub/Foo.png".data).2.1 (by decide)
  · exact (c6_img_src_rules "https://x/Foo.png".data).1 (by decide)

/- ===== C7: the changed flag is exactly "some qualifying change happened" ===== -/
mutual

theorem mapNode_changed_any (f : MapStep)
    (hf : ∀ t a, (f t a).2.1 = ((f t a).2.2).any Event.isChange) :
    ∀ n : Node, (mapNode f n).2.1 = ((mapNode f n).2.2).any Event.isChange
  | .text s => by simp [mapNode]
  | .elem t a cs => by
      have hc := mapList_changed_any f hf cs
      simp only [mapNode]
      rw [List.any_append, ← hf t a, ← hc]

theorem mapList_changed_any (f : MapStep)
    (hf : ∀ t a, (f t a).2.1 = ((f t a).2.2).any Event.isChange) :
    ∀ l : List Node, (mapList f l).2.1 = ((mapList f l).2.2).any Event.isChange
  | [] => by simp [mapList]
  | n :: rest => by
      have h1 := mapNode_changed_any f hf n
      have h2 := mapList_changed_any f hf rest
      simp only [mapList]
      rw [List.any_append, ← h1, ← h2]

end

mutual

theorem filtNode_changed_any (rem : Node → Bool) (ev : Node → Event)
    (hev : ∀ n, (ev n).isChange = true) :
    ∀ n : Node, (filtNode rem ev n).2.1 = ((filtNode rem ev n).2.2).any Event.isChange
  | .text s => by simp [filtNode]
  | .elem t a cs => by
      have hc := filtList_changed_any rem ev hev cs
      simp only [filtNode]
      exact hc

theorem filtList_changed_any (rem : Node → Bool) (ev : Node → Event)
    (hev : ∀ n, (ev n).isChange = true) :
    ∀ l : List Node, (filtList rem ev l).2.1 = ((filtList rem ev l).2.2).any Event.isChange
  | [] => by simp [filtList]
  | n :: rest => by
      have h2 := filtList_changed_any rem ev hev rest
      by_cases hr : rem n = true
      · simp [filtList, hr, hev n]
      · have h1 := filtNode_changed_any rem ev hev n
        simp only [filtList, hr, Bool.false_eq_true, if_false]
        rw [List.any_append, ← h1, ← h2]

end

theorem topicsPass_changed_any (l : List Node) :
    (topicsPass l).2.1 = ((topicsPass l).2.2).any Event.isChange := by
  unfold topicsPass
  cases h : (topicsList l).2.2 <;> simp [h, Event.isChange]

theorem ambiguous_events_no_change (warns : List (Str × List Str)) :
    ((warns.map (fun w => Event.ambiguousWarning w.1 w.2)).any Event.isChange) = false := by
  induction warns with
  | nil => rfl
  | cons w rest ih => simp [Event.isChange, ih]

theorem aStep_changed_any (ctx : Ctx) : ∀ t a,
    (aStep ctx t a).2.1 = ((aStep ctx t a).2.2).any Event.isChange := by
  intro t a
  by_cases ht : (t == "a".data) = true
  · cases hh : getAttr a "href".data with
    | none => simp [aStep, ht, hh]
    | some href =>
        by_cases hp : protectedHref href = true
        · simp [aStep, ht, hh, hp]
        · rcases hf : find_target_path href ctx.index ctx.fs ctx.root with ⟨tgt, warns⟩
          cases tgt with
          | some rel =>
              by_cases heq :
                  (joinPath (relpathAbs (ctx.root ++ splitPath rel) ctx.docDir) == href) = true
              · simp [aStep, ht, hh, hp, hf, heq, ambiguous_events_no_change]
              · simp [aStep, ht, hh, hp, hf, heq, ambiguous_events_no_change,
                  Event.isChange, List.any_append]
          | none =>
              simp [aStep, ht, hh, hp, hf, ambiguous_events_no_change,
                Event.isChange, List.any_append]
  · simp [aStep, ht]

theorem imgStep_changed_any : ∀ t a,
    (imgStep t a).2.1 = ((imgStep t a).2.2).any Event.isChange := by
  intro t a
  by_cases ht : (t == "img".data) = true
  · cases hh : getAttr a "src".data with
    | none => simp [imgStep, ht, hh]
    | some src =>
        cases hn : imgNewSrc src with
        | none => simp [imgStep, ht, hh, hn]
        | some ns => simp [imgStep, ht, hh, hn, Event.isChange]
  · simp [imgStep, ht]

theorem h3Step_changed_any : ∀ t a,
    (h3Step t a).2.1 = ((h3Step t a).2.2).any Event.isChange := by
  intro t a
  by_cases ht : (t == "h3".data) = true <;> simp [h3Step, ht, Event.isChange]

theorem aPass_changed_any (ctx : Ctx) (l : List Node) :
    (aPass ctx l).2.1 = ((aPass ctx l).2.2).any Event.isChange :=
  mapList_changed_any (aStep ctx) (aStep_changed_any ctx) l

theorem imgPass_changed_any (l : List Node) :
    (imgPass l).2.1 = ((imgPass l).2.2).any Event.isChange :=
  mapList_changed_any imgStep imgStep_changed_any l

theorem citPass_changed_any (l : List Node) :
    (citPass l).2.1 = ((citPass l).2.2).any Event.isChange :=
  filtList_changed_any isCitationNode (fun _ => Event.citationRemoved) (fun _ => rfl) l

theorem h3Pass_changed_any (l : List Node) :
    (h3Pass l).2.1 = ((h3Pass l).2.2).any Event.isChange :=
  mapList_changed_any h3Step h3Step_changed_any l

theorem pPass_changed_any (l : List Node) :
    (pPass l).2.1 = ((pPass l).2.2).any Event.isChange :=
  filtList_changed_any isUnwantedP (fun n => Event.pRemoved (getTextStripNode n)) (fun _ => rfl) l

/-- C7: the document is written back exactly when at least one `<a>` or
`<img>` attribute was actually reassigned or a structural edit applied: the
serialization decision equals "the event list contains a mutation event"
(warnings and not-found notices do not count, and a resolution equal to the
existing href sets nothing). -/
theorem c7_write_iff_changed (ctx : Ctx) (doc : List Node) :
    (writtenContent ctx doc).isSome
      = ((fix_links_in_html ctx doc).events.any Event.isChange) := by
  have hkey : (fix_links_in_html ctx doc).changed
      = ((fix_links_in_html ctx doc).events.any Event.isChange) := by
    unfold fix_links_in_html
    by_cases hname : (ctx.docName == theBookName) = true
    · simp only [hname, if_true]
      rw [aPass_changed_any, imgPass_changed_any, citPass_changed_any,
        topicsPass_changed_any, h3Pass_changed_any, pPass_changed_any]
      simp [List.any_append, Bool.or_assoc]
    · simp only [hname, Bool.false_eq_true, if_false]
      rw [aPass_changed_any, imgPass_changed_any]
      simp [List.any_append]
  unfold writtenContent
  dsimp only
  rw [← hkey]
  cases h : (fix_links_in_html ctx doc).changed <;> simp [h]

mutual

theorem mapNode_establishes (f : MapStep) (p : Str → Attrs → Bool)
    (hf : ∀ t a, p (f t a).1.1 (f t a).1.2 = true) :
    ∀ n : Node, allElemsNode p (mapNode f n).1 = true
  | .text s => by simp [mapNode, allElemsNode]
  | .elem t a cs => by
      have hc := mapList_establishes f p hf cs
      simp [mapNode, allElemsNode, hf t a, hc]

theorem mapList_establishes (f : MapStep) (p : Str → Attrs → Bool)
    (hf : ∀ t a, p (f t a).1.1 (f t a).1.2 = true) :
    ∀ l : List Node, allElemsList p (mapList f l).1 = true
  | [] => by simp [mapList, allElemsList]
  | n :: rest => by
      have h1 := mapNode_establishes f p hf n
      have h2 := mapList_establishes f p hf rest
      simp [mapList, allElemsList, h1, h2]

end

mutual

theorem mapNode_preserves (f : MapStep) (p : Str → Attrs → Bool)
    (hf : ∀ t a, p t a = true → p (f t a).1.1 (f t a).1.2 = true) :
    ∀ n : Node, allElemsNode p n = true → allElemsNode p (mapNode f n).1 = true
  | .text s => by simp [mapNode, allElemsNode]
  | .elem t a cs => by
      intro h
      simp only [allElemsNode, Bool.and_eq_true] at h
      have hc := mapList_preserves f p hf cs h.2
      simp [mapNode, allElemsNode, hf t a h.1, hc]

theorem mapList_preserves (f : MapStep) (p : Str → Attrs → Bool)
    (hf : ∀ t a, p t a = true → p (f t a).1.1 (f t a).1.2 = true) :
    ∀ l : List Node, allElemsList p l = true → allElemsList p (mapList f l).1 = true
  | [] => by simp [mapList, allElemsList]
  | n :: rest => by
      intro h
      simp only [allElemsList, Bool.and_eq_true] at h
      have h1 := mapNode_preserves f p hf n h.1
      have h2 := mapList_preserves f p hf rest h.2
      simp [mapList, allElemsList, h1, h2]

end

mutual

theorem mapNode_id_of (f : MapStep) (p : Str → Attrs → Bool)
    (hf : ∀ t a, p t a = true → f t a = ((t, a), false, [])) :
    ∀ n : Node, allElemsNode p n = true → mapNode f n = (n, false, [])
  | .text s => by intro h; simp [mapNode]
  | .elem t a cs => by
      intro h
      simp only [allElemsNode, Bool.and_eq_true] at h
      have hc := mapList_id_of f p hf cs h.2
      simp [mapNode, hf t a h.1, hc]

theorem mapList_id_of (f : MapStep) (p : Str → Attrs → Bool)
    (hf : ∀ t a, p t a = true → f t a = ((t, a), false, [])) :
    ∀ l : List Node, allElemsList p l = true → mapList f l = (l, false, [])
  | [] => by intro h; simp [mapList]
  | n :: rest => by
      intro h
      simp only [allElemsList, Bool.and_eq_true] at h
      have h1 := mapNode_id_of f p hf n h.1
      have h2 := mapList_id_of f p hf rest h.2
      simp [mapList, h1, h2]

end

mutual

theorem filtNode_preserves (rem : Node → Bool) (ev : Node → Event) (p : Str → Attrs → Bool) :
    ∀ n : Node, allElemsNode p n = true → allElemsNode p (filtNode rem ev n).1 = true
  | .text s => by simp [filtNode, allElemsNode]
  | .elem t a cs => by
      intro h
      simp only [allElemsNode, Bool.and_eq_true] at h
      have hc := filtList_preserves rem ev p cs h.2
      simp [filtNode, allElemsNode, h.1, hc]

theorem filtList_preserves (rem : Node → Bool) (ev : Node → Event) (p : Str → Attrs → Bool) :
    ∀ l : List Node, allElemsList p l = true → allElemsList p (filtList rem ev l).1 = true
  | [] => by simp [filtList, allElemsList]
  | n :: rest => by
      intro h
      simp only [allElemsList, Bool.and_eq_true] at h
      have h2 := filtList_preserves rem ev p rest h.2
      by_cases hr : rem n = true
      · simp [filtList, hr, h2]
      · have h1 := filtNode_preserves rem ev p n h.1
        simp [filtList, hr, allElemsList, h1, h2]

end

mutual

theorem filtNode_establishes (rem : Node → Bool) (ev : Node → Event) (q : Str → Attrs → Bool)
    (hrem : ∀ t a cs, rem (Node.elem t a cs) = q t a) :
    ∀ n : Node, rem n = false → allElemsNode (fun t a => !q t a) (filtNode rem ev n).1 = true
  | .text s => by intro h; simp [filtNode, allElemsNode]
  | .elem t a cs => by
      intro h
      rw [hrem t a cs] at h
      have hc := filtList_establishes rem ev q hrem cs
      simp [filtNode, allElemsNode, h, hc]

theorem filtList_establishes (rem : Node → Bool) (ev : Node → Event) (q : Str → Attrs → Bool)
    (hrem : ∀ t a cs, rem (Node.elem t a cs) = q t a) :
    ∀ l : List Node, allElemsList (fun t a => !q t a) (filtList rem ev l).1 = true
  | [] => by simp [filtList, allElemsList]
  | n :: rest => by
      have h2 := filtList_establishes rem ev q hrem rest
      by_cases hr : rem n = true
      · simp [filtList, hr, h2]
      · have h1 := filtNode_establishes rem ev q hrem n (by simpa using hr)
        simp [filtList, hr, allElemsList, h1, h2]

end

mutual

theorem filtNode_id_of (rem : Node → Bool) (ev : Node → Event) (q : Str → Attrs → Bool)
    (hrem : ∀ t a cs, rem (Node.elem t a cs) = q t a)
    (hremt : ∀ s, rem (Node.text s) = false) :
    ∀ n : Node, allElemsNode (fun t a => !q t a) n = true → filtNode rem ev n = (n, false, [])
  | .text s => by intro h; simp [filtNode]
  | .elem t a cs => by
      intro h
      simp only [allElemsNode, Bool.and_eq_true] at h
      have hc := filtList_id_of rem ev q hrem hremt cs h.2
      simp [filtNode, hc]

theorem filtList_id_of (rem : Node → Bool) (ev : Node → Event) (q : Str → Attrs → Bool)
    (hrem : ∀ t a cs, rem (Node.elem t a cs) = q t a)
    (hremt : ∀ s, rem (Node.text s) = false) :
    ∀ l : List Node, allElemsList (fun t a => !q t a) l = true → filtList rem ev l = (l, false, [])
  | [] => by intro h; simp [filtList]
  | n :: rest => by
      intro h
      simp only [allElemsList, Bool.and_eq_true] at h
      have hrn : rem n = false := by
        cases n with
        | text s => exact hremt s
        | elem t a cs =>
            rw [hrem t a cs]
            have h1 := h.1
            simp only [allElemsNode, Bool.and_eq_true] at h1
            simpa using h1.1
      have h1 := filtNode_id_of rem ev q hrem hremt n h.1
      have h2 := filtList_id_of rem ev q hrem hremt rest h.2
      simp [filtList, hrn, h1, h2]

end

mutual

theorem topicsNode_preserves (p : Str → Attrs → Bool) :
    ∀ n : Node, allElemsNode p n = true → allElemsNode p (topicsNode n).1 = true
  | .text s => by simp [topicsNode, allElemsNode]
  | .elem t a cs => by
      intro h
      simp only [allElemsNode, Bool.and_eq_true] at h
      have hc := topicsList_preserves p cs h.2
      simp [topicsNode, allElemsNode, h.1, hc]

theorem topicsList_preserves (p : Str → Attrs → Bool) :
    ∀ l : List Node, allElemsList p l = true → allElemsList p (topicsList l).1 = true
  | [] => by simp [topicsList]
  | n :: rest => by
      intro h
      simp only [allElemsList, Bool.and_eq_true] at h
      have h1n := topicsNode_preserves p n h.1
      have h2 := topicsList_preserves p rest h.2
      by_cases ht : isTopicsH2 n = true
      · by_cases htx : (getTextStripNode n == "Topics".data) = true
        · simp [topicsList, ht, htx, allElemsList, h.2]
        · simp [topicsList, ht, htx, allElemsList, h.1, h.2]
      · by_cases hf : (topicsNode n).2.1 = true
        · simp [topicsList, ht, hf, allElemsList, h1n, h.2]
        · simp [topicsList, ht, hf, allElemsList, h1n, h2]

end

/- ===== C8: step instances and the second-run theorem ===== -/
theorem getAttr_setAttr (a : Attrs) (k v : Str) : getAttr (setAttr a k v) k = some v := by
  induction a with
  | nil => simp [setAttr, getAttr, List.find?]
  | cons p rest ih =>
      by_cases h : (p.1 == k) = true
      · simp [setAttr, h, getAttr, List.find?]
      · simp only [setAttr, h, Bool.false_eq_true, if_false]
        simp only [getAttr] at ih ⊢
        rw [List.find?_cons_of_neg]
        · exact ih
        · simpa using h

theorem imgNewSrc_some (src ns : Str) (h : imgNewSrc src = some ns) : ns = assetsSrc src := by
  unfold imgNewSrc at h
  split at h
  · cases h
  · split at h
    · cases h
    · split at h
      · cases h
      · exact (Option.some.inj h).symm

theorem imgStep_establishes : ∀ t a, imgOk (imgStep t a).1.1 (imgStep t a).1.2 = true := by
  intro t a
  by_cases ht : (t == "img".data) = true
  · cases hh : getAttr a "src".data with
    | none => simp [imgStep, ht, hh, imgOk]
    | some src =>
        cases hn : imgNewSrc src with
        | none => simp [imgStep, ht, hh, hn, imgOk]
        | some ns =>
            have hns : imgNewSrc ns = none := by
              rw [imgNewSrc_some src ns hn]
              exact imgNewSrc_of_slash (assetsSrc src) (slash_mem_assetsSrc src)
            simp [imgStep, ht, hh, hn, imgOk, getAttr_setAttr, hns]
  · simp [imgStep, ht, imgOk]

theorem imgStep_id_of : ∀ t a, imgOk t a = true → imgStep t a = ((t, a), false, []) := by
  intro t a h
  by_cases ht : (t == "img".data) = true
  · cases hh : getAttr a "src".data with
    | none => simp [imgStep, ht, hh]
    | some src =>
        cases hx : imgNewSrc src with
        | none => simp [imgStep, ht, hh, hx]
        | some ns =>
            exfalso
            unfold imgOk at h
            rw [if_pos ht, hh] at h
            simp [hx] at h
  · simp [imgStep, ht]

theorem aStep_tag (ctx : Ctx) (t : Str) (a : Attrs) : (aStep ctx t a).1.1 = t := by
  unfold aStep
  repeat' split
  all_goals first
  | rfl
  | (dsimp only; split <;> rfl)

theorem aStep_of_not_a (ctx : Ctx) (t : Str) (a : Attrs) (ht : (t == "a".data) = false) :
    aStep ctx t a = ((t, a), false, []) := by
  simp [aStep, ht]

theorem aStep_preserves_imgOk (ctx : Ctx) : ∀ t a,
    imgOk t a = true → imgOk (aStep ctx t a).1.1 (aStep ctx t a).1.2 = true := by
  intro t a h
  rw [aStep_tag ctx t a]
  by_cases ht : (t == "a".data) = true
  · have htt : t = "a".data := by simpa using ht
    subst htt
    have hne : ("a".data == "img".data) = false := by decide
    simp [imgOk, hne]
  · rw [aStep_of_not_a ctx t a (by simpa using ht)]
    exact h

theorem aStep_preserves_citOk (ctx : Ctx) : ∀ t a,
    citOk t a = true → citOk (aStep ctx t a).1.1 (aStep ctx t a).1.2 = true := by
  intro t a h
  rw [aStep_tag ctx t a]
  by_cases ht : (t == "a".data) = true
  · have htt : t = "a".data := by simpa using ht
    subst htt
    have hne : ("a".data == "span".data) = false := by decide
    simp [citOk, hne]
  · rw [aStep_of_not_a ctx t a (by simpa using ht)]
    exact h

theorem aStep_preserves_h3Ok (ctx : Ctx) : ∀ t a,
    h3Ok t a = true → h3Ok (aStep ctx t a).1.1 (aStep ctx t a).1.2 = true := by
  intro t a h
  rw [aStep_tag ctx t a]
  simpa [h3Ok] using h

theorem imgStep_tag (t : Str) (a : Attrs) : (imgStep t a).1.1 = t := by
  unfold imgStep
  repeat' split
  all_goals rfl

theorem imgStep_preserves_citOk : ∀ t a,
    citOk t a = true → citOk (imgStep t a).1.1 (imgStep t a).1.2 = true := by
  intro t a h
  rw [imgStep_tag t a]
  by_cases ht : (t == "img".data) = true
  · have htt : t = "img".data := by simpa using ht
    subst htt
    have hne : ("img".data == "span".data) = false := by decide
    simp [citOk, hne]
  · simp [imgStep, ht]
    exact h

theorem imgStep_preserves_h3Ok : ∀ t a,
    h3Ok t a = true → h3Ok (imgStep t a).1.1 (imgStep t a).1.2 = true := by
  intro t a h
  rw [imgStep_tag t a]
  simpa [h3Ok] using h

theorem h3Step_establishes : ∀ t a, h3Ok (h3Step t a).1.1 (h3Step t a).1.2 = true := by
  intro t a
  by_cases ht : (t == "h3".data) = true
  · have hne : ("h2".data == "h3".data) = false := by decide
    simp [h3Step, ht, h3Ok, hne]
  · simp [h3Step, ht, h3Ok]

theorem h3Step_id_of : ∀ t a, h3Ok t a = true → h3Step t a = ((t, a), false, []) := by
  intro t a h
  unfold h3Ok at h
  simp only [Bool.not_eq_true'] at h
  simp [h3Step, h]

theorem h3Step_preserves_imgOk : ∀ t a,
    imgOk t a = true → imgOk (h3Step t a).1.1 (h3Step t a).1.2 = true := by
  intro t a h
  by_cases ht : (t == "h3".data) = true
  · have hne : ("h2".data == "img".data) = false := by decide
    simp [h3Step, ht, imgOk, hne]
  · simp [h3Step, ht]
    exact h

theorem h3Step_preserves_citOk : ∀ t a,
    citOk t a = true → citOk (h3Step t a).1.1 (h3Step t a).1.2 = true := by
  intro t a h
  by_cases ht : (t == "h3".data) = true
  · have hne : ("h2".data == "span".data) = false := by decide
    simp [h3Step, ht, citOk, hne]
  · simp [h3Step, ht]
    exact h

theorem citPass_establishes (l : List Node) : allElemsList citOk (citPass l).1 = true := by
  have h := filtList_establishes isCitationNode (fun _ => Event.citationRemoved)
      (fun t a => t == "span".data && hasClass a "citation".data) (fun t a cs => rfl) l
  exact h

theorem citPass_id_of (l : List Node) (h : allElemsList citOk l = true) :
    citPass l = (l, false, []) := by
  exact filtList_id_of isCitationNode (fun _ => Event.citationRemoved)
    (fun t a => t == "span".data && hasClass a "citation".data)
    (fun t a cs => rfl) (fun s => rfl) l h

mutual

theorem mapNode_events_all (f : MapStep) (q : Event → Bool)
    (hf : ∀ t a, ((f t a).2.2).all q = true) :
    ∀ n : Node, ((mapNode f n).2.2).all q = true
  | .text s => by simp [mapNode]
  | .elem t a cs => by
      have hc := mapList_events_all f q hf cs
      simp [mapNode, List.all_append, hf t a, hc]

theorem mapList_events_all (f : MapStep) (q : Event → Bool)
    (hf : ∀ t a, ((f t a).2.2).all q = true) :
    ∀ l : List Node, ((mapList f l).2.2).all q = true
  | [] => by simp [mapList]
  | n :: rest => by
      have h1 := mapNode_events_all f q hf n
      have h2 := mapList_events_all f q hf rest
      simp [mapList, List.all_append, h1, h2]

end

mutual

theorem filtNode_events_all (rem : Node → Bool) (ev : Node → Event) (q : Event → Bool)
    (hq : ∀ n, q (ev n) = true) :
    ∀ n : Node, ((filtNode rem ev n).2.2).all q = true
  | .text s => by simp [filtNode]
  | .elem t a cs => by
      have hc := filtList_events_all rem ev q hq cs
      simpa [filtNode] using hc

theorem filtList_events_all (rem : Node → Bool) (ev : Node → Event) (q : Event → Bool)
    (hq : ∀ n, q (ev n) = true) :
    ∀ l : List Node, ((filtList rem ev l).2.2).all q = true
  | [] => by simp [filtList]
  | n :: rest => by
      have h2 := filtList_events_all rem ev q hq rest
      by_cases hr : rem n = true
      · simp [filtList, hr, hq n, h2]
      · have h1 := filtNode_events_all rem ev q hq n
        simp [filtList, hr, List.all_append, h1, h2]

end

theorem topicsPass_events_all (q : Event → Bool) (hq : q Event.topicsRemoved = true)
    (l : List Node) : ((topicsPass l).2.2).all q = true := by
  unfold topicsPass
  cases h : (topicsList l).2.2 <;> simp [h, hq]

theorem ambiguous_events_all (q : Event → Bool)
    (hq : ∀ b c, q (Event.ambiguousWarning b c) = true) (warns : List (Str × List Str)) :
    ((warns.map (fun w => Event.ambiguousWarning w.1 w.2)).all q) = true := by
  induction warns with
  | nil => rfl
  | cons w rest ih => simp [hq, ih]

theorem wEvents_append_all (q : Event → Bool)
    (hq : ∀ b c, q (Event.ambiguousWarning b c) = true) (warns : List (Str × List Str))
    (e : Event) (hqe : q e = true) :
    (((warns.map (fun w => Event.ambiguousWarning w.1 w.2)) ++ [e]).all q) = true := by
  simp [List.all_append, ambiguous_events_all q hq warns, hqe]

theorem aStep_events_not_oneShot (ctx : Ctx) : ∀ t a,
    ((aStep ctx t a).2.2).all (fun e => !e.isOneShot) = true := by
  intro t a
  by_cases ht : (t == "a".data) = true
  · cases hh : getAttr a "href".data with
    | none => simp [aStep, ht, hh]
    | some href =>
        by_cases hp : protectedHref href = true
        · simp [aStep, ht, hh, hp]
        · rcases hf : find_target_path href ctx.index ctx.fs ctx.root with ⟨tgt, warns⟩
          cases tgt with
          | some rel =>
              by_cases heq :
                  (joinPath (relpathAbs (ctx.root ++ splitPath rel) ctx.docDir) == href) = true
              · simp [aStep, ht, hh, hp, hf, heq,
                  ambiguous_events_all (fun e => !e.isOneShot) (fun b c => rfl)]
              · simp only [aStep, ht, if_true, hh, hp, Bool.false_eq_true, if_false, hf, heq]
                exact wEvents_append_all _ (fun b c => rfl) warns _ rfl
          | none =>
              simp only [aStep, ht, if_true, hh, hp, Bool.false_eq_true, if_false, hf]
              exact wEvents_append_all _ (fun b c => rfl) warns _ rfl
  · simp [aStep, ht]

theorem topicsPass_tree (l : List Node) : (topicsPass l).1 = (topicsList l).1 := rfl

theorem fix_tree_book (ctx : Ctx) (doc : List Node)
    (hname : (ctx.docName == theBookName) = true) :
    (fix_links_in_html ctx doc).tree
      = (pPass (h3Pass (topicsPass (citPass (imgPass (aPass ctx doc).1).1).1).1).1).1 := by
  unfold fix_links_in_html
  simp only [hname, if_true]

theorem fix_tree_other (ctx : Ctx) (doc : List Node)
    (hname : (ctx.docName == theBookName) = false) :
    (fix_links_in_html ctx doc).tree = (imgPass (aPass ctx doc).1).1 := by
  unfold fix_links_in_html
  simp only [hname, Bool.false_eq_true, if_false]

theorem fix_events_book (ctx : Ctx) (doc : List Node)
    (hname : (ctx.docName == theBookName) = true) :
    (fix_links_in_html ctx doc).events
      = (aPass ctx doc).2.2 ++ (imgPass (aPass ctx doc).1).2.2
        ++ (citPass (imgPass (aPass ctx doc).1).1).2.2
        ++ (topicsPass (citPass (imgPass (aPass ctx doc).1).1).1).2.2
        ++ (h3Pass (topicsPass (citPass (imgPass (aPass ctx doc).1).1).1).1).2.2
        ++ (pPass (h3Pass (topicsPass (citPass (imgPass (aPass ctx doc).1).1).1).1).1).2.2 := by
  unfold fix_links_in_html
  simp only [hname, if_true]

theorem fix_events_other (ctx : Ctx) (doc : List Node)
    (hname : (ctx.docName == theBookName) = false) :
    (fix_links_in_html ctx doc).events
      = (aPass ctx doc).2.2 ++ (imgPass (aPass ctx doc).1).2.2 := by
  unfold fix_links_in_html
  simp only [hname, Bool.false_eq_true, if_false]

theorem fix_imgOk (ctx : Ctx) (doc : List Node) :
    allElemsList imgOk (fix_links_in_html ctx doc).tree = true := by
  by_cases hname : (ctx.docName == theBookName) = true
  · rw [fix_tree_book ctx doc hname, topicsPass_tree]
    unfold pPass h3Pass citPass imgPass aPass
    apply filtList_preserves
    apply mapList_preserves _ _ h3Step_preserves_imgOk
    apply topicsList_preserves
    apply filtList_preserves
    apply mapList_establishes _ _ imgStep_establishes
  · rw [fix_tree_other ctx doc (by simpa using hname)]
    unfold imgPass aPass
    apply mapList_establishes _ _ imgStep_establishes

theorem fix_citOk_book (ctx : Ctx) (doc : List Node)
    (hname : (ctx.docName == theBookName) = true) :
    allElemsList citOk (fix_links_in_html ctx doc).tree = true := by
  rw [fix_tree_book ctx doc hname, topicsPass_tree]
  unfold pPass h3Pass
  apply filtList_preserves
  apply mapList_preserves _ _ h3Step_preserves_citOk
  apply topicsList_preserves
  exact citPass_establishes _

theorem fix_h3Ok_book (ctx : Ctx) (doc : List Node)
    (hname : (ctx.docName == theBookName) = true) :
    allElemsList h3Ok (fix_links_in_html ctx doc).tree = true := by
  rw [fix_tree_book ctx doc hname]
  unfold pPass h3Pass
  apply filtList_preserves
  apply mapList_establishes _ _ h3Step_establishes

theorem second_run_events_book (ctx : Ctx) (T : List Node)
    (hname : (ctx.docName == theBookName) = true)
    (himg : allElemsList imgOk T = true)
    (hcit : allElemsList citOk T = true)
    (hh3 : allElemsList h3Ok T = true) :
    ((fix_links_in_html ctx T).events.all (fun e => !e.isOneShot)) = true := by
  rw [fix_events_book ctx T hname]
  have himg1 : allElemsList imgOk (aPass ctx T).1 = true :=
    mapList_preserves _ _ (aStep_preserves_imgOk ctx) T himg
  have hcit1 : allElemsList citOk (aPass ctx T).1 = true :=
    mapList_preserves _ _ (aStep_preserves_citOk ctx) T hcit
  have hh31 : allElemsList h3Ok (aPass ctx T).1 = true :=
    mapList_preserves _ _ (aStep_preserves_h3Ok ctx) T hh3
  have hImgId : imgPass (aPass ctx T).1 = ((aPass ctx T).1, false, []) :=
    mapList_id_of _ _ imgStep_id_of _ himg1
  have hCitId : citPass (aPass ctx T).1 = ((aPass ctx T).1, false, []) :=
    citPass_id_of _ hcit1
  have hh34 : allElemsList h3Ok (topicsPass (aPass ctx T).1).1 = true := by
    rw [topicsPass_tree]
    exact topicsList_preserves _ _ hh31
  have hH3Id : h3Pass (topicsPass (aPass ctx T).1).1
      = ((topicsPass (aPass ctx T).1).1, false, []) :=
    mapList_id_of _ _ h3Step_id_of _ hh34
  have hA : ((aPass ctx T).2.2).all (fun e => !e.isOneShot) = true :=
    mapList_events_all _ _ (aStep_events_not_oneShot ctx) T
  have hTop : ∀ Y, ((topicsPass Y).2.2).all (fun e => !e.isOneShot) = true :=
    fun Y => topicsPass_events_all _ rfl Y
  have hPev : ∀ Y, ((pPass Y).2.2).all (fun e => !e.isOneShot) = true :=
    fun Y => filtList_events_all _ _ _ (fun n => rfl) Y
  simp only [hImgId]
  simp only [hCitId]
  simp only [hH3Id]
  simp [List.all_append, hA, hTop, hPev]

theorem second_run_events_other (ctx : Ctx) (T : List Node)
    (hname : (ctx.docName == theBookName) = false)
    (himg : allElemsList imgOk T = true) :
    ((fix_links_in_html ctx T).events.all (fun e => !e.isOneShot)) = true := by
  rw [fix_events_other ctx T hname]
  have himg1 : allElemsList imgOk (aPass ctx T).1 = true :=
    mapList_preserves _ _ (aStep_preserves_imgOk ctx) T himg
  have hImgId : imgPass (aPass ctx T).1 = ((aPass ctx T).1, false, []) :=
    mapList_id_of _ _ imgStep_id_of _ himg1
  have hA : ((aPass ctx T).2.2).all (fun e => !e.isOneShot) = true :=
    mapList_events_all _ _ (aStep_events_not_oneShot ctx) T
  simp [hImgId, List.all_append, hA]

/-- C8 amended: a second run of `fix_links_in_html` over an already-fixed
document performs no further img-src rewrites, no citation removals and no
h3 renames; full idempotence fails, because the h2#topics removal (only the
first match is removed per run), the anchor rewriting, and the paragraph
removals these enable can all trigger again on a second run. -/
theorem c8_amended_one_shot_passes (ctx : Ctx) (doc : List Node) :
    ((fix_links_in_html ctx (fix_links_in_html ctx doc).tree).events.all
      (fun e => !e.isOneShot)) = true := by
  by_cases hname : (ctx.docName == theBookName) = true
  · exact second_run_events_book ctx _ hname (fix_imgOk ctx doc)
      (fix_citOk_book ctx doc hname) (fix_h3Ok_book ctx doc hname)
  · exact second_run_events_other ctx _ (by simpa using hname) (fix_imgOk ctx doc)

/-- C8 counterexample: rewriting is not idempotent.  On `c8doc` the first
run removes only the first h2#topics (`soup.find` finds one element per
run) and reports a change, and the second run on the resulting tree again
reports a change — refuting "running the process a second time makes no
further attribute reassignments, structural edits or byte differences". -/
theorem c8_counterexample :
    (fix_links_in_html c8ctx (fix_links_in_html c8ctx c8doc).tree).changed = true ∧
    (fix_links_in_html c8ctx c8doc).changed = true := by
  exact ⟨by decide, by decide⟩

mutual

theorem pTexts_pFree_node : ∀ n : Node, pFreeNode n = true → pTextsNode n = []
  | .text _ => by simp [pTextsNode]
  | .elem t a cs => by
      intro h
      simp only [pFreeNode, Bool.and_eq_true, Bool.not_eq_true'] at h
      simp [pTextsNode, h.1, pTexts_pFree_list cs h.2]

theorem pTexts_pFree_list : ∀ l : List Node, pFreeList l = true → pTextsList l = []
  | [] => by simp [pTextsList]
  | n :: rest => by
      intro h
      simp only [pFreeList, Bool.and_eq_true] at h
      simp [pTextsList, pTexts_pFree_node n h.1, pTexts_pFree_list rest h.2]

end

mutual

theorem getTextStrip_mapNode (f : MapStep) :
    ∀ n : Node, getTextStripNode (mapNode f n).1 = getTextStripNode n
  | .text s => by simp [mapNode, getTextStripNode]
  | .elem t a cs => by
      have hc := getTextStrip_mapList f cs
      simp [mapNode, getTextStripNode, hc]

theorem getTextStrip_mapList (f : MapStep) :
    ∀ l : List Node, getTextStripList (mapList f l).1 = getTextStripList l
  | [] => by simp [mapList, getTextStripList]
  | n :: rest => by
      have h1 := getTextStrip_mapNode f n
      have h2 := getTextStrip_mapList f rest
      simp [mapList, getTextStripList, h1, h2]

end

mutual

theorem pTexts_mapNode (f : MapStep) (hf : ∀ t a, (f t a).1.1 = t) :
    ∀ n : Node, pTextsNode (mapNode f n).1 = pTextsNode n
  | .text s => by simp [mapNode, pTextsNode]
  | .elem t a cs => by
      have hc := pTexts_mapList f hf cs
      have htx := getTextStrip_mapList f cs
      simp only [mapNode, pTextsNode, hf t a, hc]
      by_cases ht : (t == "p".data) = true
      · simp [ht, normText, getTextStripNode, htx]
      · simp [ht]

theorem pTexts_mapList (f : MapStep) (hf : ∀ t a, (f t a).1.1 = t) :
    ∀ l : List Node, pTextsList (mapList f l).1 = pTextsList l
  | [] => by simp [mapList, pTextsList]
  | n :: rest => by
      have h1 := pTexts_mapNode f hf n
      have h2 := pTexts_mapList f hf rest
      simp [mapList, pTextsList, h1, h2]

end

theorem aStep_ptag (ctx : Ctx) : ∀ t a,
    (((aStep ctx t a).1.1) == "p".data) = (t == "p".data) := by
  intro t a
  rw [aStep_tag ctx t a]

theorem imgStep_ptag : ∀ t a, (((imgStep t a).1.1) == "p".data) = (t == "p".data) := by
  intro t a
  rw [imgStep_tag t a]

theorem h3Step_ptag : ∀ t a, (((h3Step t a).1.1) == "p".data) = (t == "p".data) := by
  intro t a
  by_cases ht : (t == "h3".data) = true
  · have htt : t = "h3".data := by simpa using ht
    subst htt
    simp [h3Step]
  · simp [h3Step, ht]

mutual

theorem pFree_mapNode (f : MapStep) (hf : ∀ t a, (((f t a).1.1) == "p".data) = (t == "p".data)) :
    ∀ n : Node, pFreeNode (mapNode f n).1 = pFreeNode n
  | .text s => by simp [mapNode, pFreeNode]
  | .elem t a cs => by
      have hc := pFree_mapList f hf cs
      simp [mapNode, pFreeNode, hf t a, hc]

theorem pFree_mapList (f : MapStep) (hf : ∀ t a, (((f t a).1.1) == "p".data) = (t == "p".data)) :
    ∀ l : List Node, pFreeList (mapList f l).1 = pFreeList l
  | [] => by simp [mapList, pFreeList]
  | n :: rest => by
      have h1 := pFree_mapNode f hf n
      have h2 := pFree_mapList f hf rest
      simp [mapList, pFreeList, h1, h2]

end

mutual

theorem pNestFree_mapNode (f : MapStep)
    (hf : ∀ t a, (((f t a).1.1) == "p".data) = (t == "p".data)) :
    ∀ n : Node, pNestFreeNode (mapNode f n).1 = pNestFreeNode n
  | .text s => by simp [mapNode, pNestFreeNode]
  | .elem t a cs => by
      have hcf := pFree_mapList f hf cs
      have hcn := pNestFree_mapList f hf cs
      simp only [mapNode, pNestFreeNode, hf t a]
      by_cases ht : (t == "p".data) = true
      · simp [ht, hcf]
      · simp [ht, hcn]

theorem pNestFree_mapList (f : MapStep)
    (hf : ∀ t a, (((f t a).1.1) == "p".data) = (t == "p".data)) :
    ∀ l : List Node, pNestFreeList (mapList f l).1 = pNestFreeList l
  | [] => by simp [mapList, pNestFreeList]
  | n :: rest => by
      have h1 := pNestFree_mapNode f hf n
      have h2 := pNestFree_mapList f hf rest
      simp [mapList, pNestFreeList, h1, h2]

end

mutual

theorem pFree_filtNode (rem : Node → Bool) (ev : Node → Event) :
    ∀ n : Node, pFreeNode n = true → pFreeNode (filtNode rem ev n).1 = true
  | .text s => by simp [filtNode, pFreeNode]
  | .elem t a cs => by
      intro h
      simp only [pFreeNode, Bool.and_eq_true] at h
      have hc := pFree_filtList rem ev cs h.2
      simp [filtNode, pFreeNode, h.1, hc]

theorem pFree_filtList (rem : Node → Bool) (ev : Node → Event) :
    ∀ l : List Node, pFreeList l = true → pFreeList (filtList rem ev l).1 = true
  | [] => by simp [filtList, pFreeList]
  | n :: rest => by
      intro h
      simp only [pFreeList, Bool.and_eq_true] at h
      have h2 := pFree_filtList rem ev rest h.2
      by_cases hr : rem n = true
      · simp [filtList, hr, h2]
      · have h1 := pFree_filtNode rem ev n h.1
        simp [filtList, hr, pFreeList, h1, h2]

end

mutual

theorem pNestFree_filtNode (rem : Node → Bool) (ev : Node → Event) :
    ∀ n : Node, pNestFreeNode n = true → pNestFreeNode (filtNode rem ev n).1 = true
  | .text s => by simp [filtNode, pNestFreeNode]
  | .elem t a cs => by
      intro h
      simp only [pNestFreeNode] at h
      by_cases ht : (t == "p".data) = true
      · rw [if_pos ht] at h
        have hc := pFree_filtList rem ev cs h
        simp [filtNode, pNestFreeNode, ht, hc]
      · rw [if_neg ht] at h
        have hc := pNestFree_filtList rem ev cs h
        simp [filtNode, pNestFreeNode, ht, hc]

theorem pNestFree_filtList (rem : Node → Bool) (ev : Node → Event) :
    ∀ l : List Node, pNestFreeList l = true → pNestFreeList (filtList rem ev l).1 = true
  | [] => by simp [filtList, pNestFreeList]
  | n :: rest => by
      intro h
      simp only [pNestFreeList, Bool.and_eq_true] at h
      have h2 := pNestFree_filtList rem ev rest h.2
      by_cases hr : rem n = true
      · simp [filtList, hr, h2]
      · have h1 := pNestFree_filtNode rem ev n h.1
        simp [filtList, hr, pNestFreeList, h1, h2]

end

mutual

theorem pFree_topicsNode : ∀ n : Node, pFreeNode n = true → pFreeNode (topicsNode n).1 = true
  | .text s => by simp [topicsNode, pFreeNode]
  | .elem t a cs => by
      intro h
      simp only [pFreeNode, Bool.and_eq_true] at h
      have hc := pFree_topicsList cs h.2
      simp [topicsNode, pFreeNode, h.1, hc]

theorem pFree_topicsList : ∀ l : List Node, pFreeList l = true → pFreeList (topicsList l).1 = true
  | [] => by simp [topicsList, pFreeList]
  | n :: rest => by
      intro h
      simp only [pFreeList, Bool.and_eq_true] at h
      have h1 := pFree_topicsNode n h.1
      have h2 := pFree_topicsList rest h.2
      by_cases ht : isTopicsH2 n = true
      · by_cases htx : (getTextStripNode n == "Topics".data) = true
        · simp [topicsList, ht, htx, h.2]
        · simp [topicsList, ht, htx, pFreeList, h.1, h.2]
      · by_cases hfo : (topicsNode n).2.1 = true
        · simp [topicsList, ht, hfo, pFreeList, h1, h.2]
        · simp [topicsList, ht, hfo, pFreeList, h1, h2]

end

mutual

theorem pNestFree_topicsNode : ∀ n : Node,
    pNestFreeNode n = true → pNestFreeNode (topicsNode n).1 = true
  | .text s => by simp [topicsNode, pNestFreeNode]
  | .elem t a cs => by
      intro h
      simp only [pNestFreeNode] at h
      by_cases ht : (t == "p".data) = true
      · rw [if_pos ht] at h
        have hc := pFree_topicsList cs h
        simp [topicsNode, pNestFreeNode, ht, hc]
      · rw [if_neg ht] at h
        have hc := pNestFree_topicsList cs h
        simp [topicsNode, pNestFreeNode, ht, hc]

theorem pNestFree_topicsList : ∀ l : List Node,
    pNestFreeList l = true → pNestFreeList (topicsList l).1 = true
  | [] => by simp [topicsList, pNestFreeList]
  | n :: rest => by
      intro h
      simp only [pNestFreeList, Bool.and_eq_true] at h
      have h1 := pNestFree_topicsNode n h.1
      have h2 := pNestFree_topicsList rest h.2
      by_cases ht : isTopicsH2 n = true
      · by_cases htx : (getTextStripNode n == "Topics".data) = true
        · simp [topicsList, ht, htx, h.2]
        · simp [topicsList, ht, htx, pNestFreeList, h.1, h.2]
      · by_cases hfo : (topicsNode n).2.1 = true
        · simp [topicsList, ht, hfo, pNestFreeList, h1, h.2]
        · simp [topicsList, ht, hfo, pNestFreeList, h1, h2]

end

mutual

theorem pPass_pFree_node (ev : Node → Event) :
    ∀ n : Node, pFreeNode n = true → filtNode isUnwantedP ev n = (n, false, [])
  | .text s => by intro h; simp [filtNode]
  | .elem t a cs => by
      intro h
      simp only [pFreeNode, Bool.and_eq_true] at h
      have hc := pPass_pFree_list ev cs h.2
      simp [filtNode, hc]

theorem pPass_pFree_list (ev : Node → Event) :
    ∀ l : List Node, pFreeList l = true → filtList isUnwantedP ev l = (l, false, [])
  | [] => by intro h; simp [filtList]
  | n :: rest => by
      intro h
      simp only [pFreeList, Bool.and_eq_true] at h
      have hr : isUnwantedP n = false := by
        cases n with
        | text s => rfl
        | elem t a cs =>
            have h1 := h.1
            simp only [pFreeNode, Bool.and_eq_true, Bool.not_eq_true'] at h1
            simp [isUnwantedP, h1.1]
      have h1 := pPass_pFree_node ev n h.1
      have h2 := pPass_pFree_list ev rest h.2
      simp [filtList, hr, h1, h2]

end

mutual

theorem pTexts_filt_node (ev : Node → Event) :
    ∀ n : Node, pNestFreeNode n = true → isUnwantedP n = false →
      pTextsNode (filtNode isUnwantedP ev n).1
        = (pTextsNode n).filter (fun s => !isUnwantedText s)
  | .text s => by intro hn hu; simp [filtNode, pTextsNode]
  | .elem t a cs => by
      intro hn hu
      simp only [pNestFreeNode] at hn
      by_cases ht : (t == "p".data) = true
      · rw [if_pos ht] at hn
        have hid := pPass_pFree_list ev cs hn
        have htx := pTexts_pFree_list cs hn
        have hkeep : isUnwantedText (normText (Node.elem t a cs)) = false := by
          simp only [isUnwantedP, ht, Bool.true_and] at hu
          exact hu
        simp [filtNode, pTextsNode, ht, hid, htx, List.filter, hkeep]
      · rw [if_neg ht] at hn
        have hc := pTexts_filt_list ev cs hn
        simp [filtNode, pTextsNode, ht, hc]

theorem pTexts_filt_list (ev : Node → Event) :
    ∀ l : List Node, pNestFreeList l = true →
      pTextsList (filtList isUnwantedP ev l).1
        = (pTextsList l).filter (fun s => !isUnwantedText s)
  | [] => by intro h; simp [filtList, pTextsList]
  | n :: rest => by
      intro h
      simp only [pNestFreeList, Bool.and_eq_true] at h
      have h2 := pTexts_filt_list ev rest h.2
      by_cases hr : isUnwantedP n = true
      · cases n with
        | text s => exact absurd hr (by simp [isUnwantedP])
        | elem t a cs =>
            have hdec : (t == "p".data) = true
                ∧ isUnwantedText (normText (Node.elem t a cs)) = true := by
              simpa [isUnwantedP, Bool.and_eq_true] using hr
            have hnf := h.1
            simp only [pNestFreeNode, hdec.1, if_true] at hnf
            have htx := pTexts_pFree_list cs hnf
            simp [filtList, hr, h2, pTextsList, pTextsNode, hdec.1, htx,
              List.filter_append, List.filter, hdec.2]
      · have h1 := pTexts_filt_node ev n h.1 (by simpa using hr)
        simp [filtList, hr, pTextsList, h1, h2, List.filter_append]

end

theorem all_filter_keeps (p : Str → Bool) (l : List Str) : ((l.filter p).all p) = true := by
  induction l with
  | nil => rfl
  | cons s rest ih =>
      by_cases h : p s = true
      · simp [List.filter, h, ih]
      · simp [List.filter, h, ih]

/-- C9: in the designated document (and assuming the parser invariant that
no `p` nests inside another `p`), (1) after `fix_links_in_html` no paragraph
whose whitespace-free text equals one of the two literals remains; (2) the
paragraph pass removes exactly the paragraphs with an unwanted normalized
text and keeps every other paragraph; and (3) in any other document the
paragraphs (by normalized text) are preserved untouched. -/
theorem c9_designated_paragraph_removal (ctx : Ctx) (doc : List Node) :
    (ctx.docName = theBookName → pNestFreeList doc = true →
      ((pTextsList (fix_links_in_html ctx doc).tree).all (fun s => !isUnwantedText s)) = true) ∧
    (pNestFreeList doc = true →
      pTextsList (pPass doc).1 = (pTextsList doc).filter (fun s => !isUnwantedText s)) ∧
    (ctx.docName ≠ theBookName →
      pTextsList (fix_links_in_html ctx doc).tree = pTextsList doc) := by
  refine ⟨?_, ?_, ?_⟩
  · intro hname hnf
    have hbeq : (ctx.docName == theBookName) = true := beq_iff_eq.mpr hname
    rw [fix_tree_book ctx doc hbeq]
    have h1 : pNestFreeList (aPass ctx doc).1 = true := by
      unfold aPass
      rw [pNestFree_mapList (aStep ctx) (aStep_ptag ctx) doc]
      exact hnf
    have h2 : pNestFreeList (imgPass (aPass ctx doc).1).1 = true := by
      unfold imgPass
      rw [pNestFree_mapList imgStep imgStep_ptag]
      exact h1
    have h3 : pNestFreeList (citPass (imgPass (aPass ctx doc).1).1).1 = true := by
      unfold citPass
      exact pNestFree_filtList _ _ _ h2
    have h4 : pNestFreeList (topicsPass (citPass (imgPass (aPass ctx doc).1).1).1).1 = true := by
      rw [topicsPass_tree]
      exact pNestFree_topicsList _ h3
    have h5 : pNestFreeList
        (h3Pass (topicsPass (citPass (imgPass (aPass ctx doc).1).1).1).1).1 = true := by
      unfold h3Pass
      rw [pNestFree_mapList h3Step h3Step_ptag]
      exact h4
    unfold pPass
    rw [pTexts_filt_list _ _ h5]
    exact all_filter_keeps _ _
  · intro hnf
    unfold pPass
    exact pTexts_filt_list _ doc hnf
  · intro hname
    have hbeq : (ctx.docName == theBookName) = false := beq_eq_false_iff_ne.mpr hname
    rw [fix_tree_other ctx doc hbeq]
    unfold imgPass aPass
    rw [pTexts_mapList imgStep imgStep_tag, pTexts_mapList (aStep ctx) (aStep_tag ctx)]

/-- C9 witness: on the concrete document the designated run leaves no
unwanted paragraph, the paragraph pass computes exactly the filtered text
list, and the non-designated run preserves both paragraphs. -/
theorem c9_designated_paragraph_removal_witness :
    ((pTextsList (fix_links_in_html c9ctxBook c9doc).tree).all
      (fun s => !isUnwantedText s)) = true ∧
    pTextsList (pPass c9doc).1 = (pTextsList c9doc).filter (fun s => !isUnwantedText s) ∧
    pTextsList (fix_links_in_html c9ctxOther c9doc).tree = pTextsList c9doc := by
  refine ⟨?_, ?_, ?_⟩
  · exact (c9_designated_paragraph_removal c9ctxBook c9doc).1 rfl (by decide)
  · exact (c9_designated_paragraph_removal c9ctxBook c9doc).2.1 (by decide)
  · exact (c9_designated_paragraph_removal c9ctxOther c9doc).2.2 (by decide)
